import Mathlib

set_option linter.unusedVariables false

/-!
Shallow embedding of `src/programs/memeland_airdrop/src/lib.rs` (Anchor/Solana
staking-airdrop program).  Machine integers (u64/u128) are modelled as `Nat`
with explicit `< 2^64` / `< 2^128` checks where the source uses `checked_*`
arithmetic (an `unwrap` panic, like an out-of-bounds array index, is modelled
as `Option.none` / an `Except.error`); `i64` timestamps are modelled as `Int`.
The keccak hash is abstracted as a parameter `Hh : Bytes → Bytes` applied to
the concatenation of the hashed slices, exactly as `keccak::hashv` is.
-/

-- ── Constants (lib.rs:9-17) ──

def TOTAL_DAYS : Nat := 20

def SECONDS_PER_DAY : Nat := 86400

def EXIT_WINDOW_DAYS : Nat := 15

def AIRDROP_POOL : Nat := 50000000000000000

def STAKING_POOL : Nat := 100000000000000000

/-- One past the largest u64 value. -/
def U64 : Nat := 2 ^ 64

/-- One past the largest u128 value. -/
def U128 : Nat := 2 ^ 128

/-- A byte string (each entry a byte value; 32-byte hashes, pubkeys, ...). -/
abbrev Bytes := List Nat

/-- `amount.to_le_bytes()` (lib.rs:122): the 8 little-endian bytes of a u64. -/
def u64le (n : Nat) : Bytes := (List.range 8).map (fun i => n / 256 ^ i % 256)

/-- Rust `[u8; 32]` ordering (lib.rs:562, `computed_hash <= *node`):
byte-wise lexicographic comparison. -/
def byteLe : Bytes → Bytes → Bool
  | [], [] => true
  | [], _ :: _ => true
  | _ :: _, [] => false
  | a :: as, b :: bs => if a < b then true else if b < a then false else byteLe as bs

/-- The proof fold of `verify_merkle_proof` (lib.rs:560-567): at each step the
byte-wise smaller of (accumulator, proof node) is hashed first. -/
def merkleFold (Hh : Bytes → Bytes) (leaf : Bytes) (proof : List Bytes) : Bytes :=
  proof.foldl (fun acc node => if byteLe acc node then Hh (acc ++ node) else Hh (node ++ acc)) leaf

/-- `verify_merkle_proof` (lib.rs:559-569). -/
def verify_merkle_proof (Hh : Bytes → Bytes) (proof : List Bytes) (root leaf : Bytes) : Bool :=
  merkleFold Hh leaf proof == root

/-- `get_current_day` (lib.rs:515-526): 0 before start, otherwise elapsed
seconds divided by `SECONDS_PER_DAY`, capped at `TOTAL_DAYS`. -/
def get_current_day (start_time now : Int) : Nat :=
  if now ≤ start_time then 0
  else
    let elapsed : Nat := (now - start_time).toNat
    let day := elapsed / SECONDS_PER_DAY
    if TOTAL_DAYS ≤ day then TOTAL_DAYS else day

/-- `exit_deadline` (lib.rs:572-575). -/
def exit_deadline (start_time : Int) : Int :=
  start_time + ((TOTAL_DAYS + EXIT_WINDOW_DAYS) * SECONDS_PER_DAY : Nat)

/-- `program_expired` (lib.rs:578-580): strictly after the exit deadline. -/
def program_expired (start_time now : Int) : Bool :=
  decide (now > exit_deadline start_time)

-- ── calculate_user_rewards (lib.rs:529-556) ──

/-- The loop body of `calculate_user_rewards` (lib.rs:540-553), iterating the
day indices in `[claim_day, snapshot_count)`, carrying the u128 accumulator.
`none` models a panic: an out-of-bounds index into the `[u64; 32]` arrays or a
`checked_mul`/`checked_add` overflow `unwrap`.  A zero snapshot day is
skipped (`continue`) without reading `daily_rewards[d]`. -/
def calcFold (staked : Nat) (rewards snapshots : List Nat) : List Nat → Nat → Option Nat
  | [], acc => some acc
  | d :: ds, acc =>
    match snapshots.get? d with
    | none => none
    | some st =>
      if st = 0 then calcFold staked rewards snapshots ds acc
      else
        match rewards.get? d with
        | none => none
        | some rw =>
          if staked * rw < U128 then
            let share := staked * rw / st
            if acc + share < U128 then calcFold staked rewards snapshots ds (acc + share)
            else none
          else none

/-- `calculate_user_rewards` (lib.rs:529-556).  The final `total_rewards as u64`
cast truncates the u128 accumulator modulo `2^64`. -/
def calculate_user_rewards (staked claim_day snapshot_count : Nat)
    (rewards snapshots : List Nat) : Option Nat :=
  (calcFold staked rewards snapshots (List.range' claim_day (snapshot_count - claim_day)) 0).map
    (fun t => t % U64)

/-- The exact sum named by the spec: over days `d` in
`[claim_day, snapshot_count)` with `daily_snapshots[d] > 0`, the term
`floor(staked * daily_rewards[d] / daily_snapshots[d])`. -/
def rewardsSpecSum (staked claim_day snapshot_count : Nat)
    (rewards snapshots : List Nat) : Nat :=
  ((List.range' claim_day (snapshot_count - claim_day)).map (fun d =>
      if snapshots.getD d 0 = 0 then 0 else staked * rewards.getD d 0 / snapshots.getD d 0)).sum

-- ── State (lib.rs:804-843) ──

/-- `UserStake` (lib.rs:836-843); the `owner`/`bump` fields are account-plumbing
and carry no program logic. -/
structure UserStake where
  staked_amount : Nat
  claim_day : Nat
deriving DecidableEq

/-- `PoolState` (lib.rs:807-825).  The `[u64; 32]` arrays (slots 20..31 unused)
are length-32 lists; `admin` / `token_mint` / bump fields are account plumbing
with no program logic and are omitted. -/
structure Pool where
  start_time : Int
  total_staked : Nat
  total_airdrop_claimed : Nat
  snapshot_count : Nat
  terminated : Nat
  paused : Nat
  merkle_root : Bytes
  daily_rewards : List Nat
  daily_snapshots : List Nat
deriving DecidableEq

/-- `ErrorCode` (lib.rs:901-968), plus `Overflow` for a `checked_*` `unwrap`
panic and `InsufficientBalance` for a failing SPL token transfer. -/
inductive Err where
  | StartTimeInPast
  | InvalidDailyRewards
  | PoolPaused
  | PoolTerminated
  | ProgramExpired
  | PoolNotStartedYet
  | SnapshotRequiredFirst
  | InvalidMerkleProof
  | AirdropPoolExhausted
  | InvalidDay
  | NothingStaked
  | AlreadyTerminated
  | SnapshotsNotCompleted
  | ExitWindowNotFinished
  | NothingToRecover
  | AlreadyPaused
  | PoolNotPaused
  | Overflow
  | InsufficientBalance
deriving DecidableEq

-- ── initialize_pool (lib.rs:40-88) ──

/-- The `checked_add` summation loop over the supplied daily rewards
(lib.rs:69-73); `none` models the `unwrap` panic on u64 overflow. -/
def sumChecked64 : List Nat → Nat → Option Nat
  | [], acc => some acc
  | x :: xs, acc => if acc + x < U64 then sumChecked64 xs (acc + x) else none

/-- `initialize_pool` (lib.rs:40-88).  `dr` is the `[u64; 20]` argument; the
pool stores it in the first 20 slots of the zero-initialized `[u64; 32]`. -/
def initialize_pool (now start_time : Int) (root : Bytes) (dr : List Nat) : Except Err Pool :=
  if ¬ start_time > now then .error .StartTimeInPast
  else
    match sumChecked64 dr 0 with
    | none => .error .Overflow
    | some s =>
      if s = STAKING_POOL then
        .ok { start_time := start_time, total_staked := 0, total_airdrop_claimed := 0,
              snapshot_count := 0, terminated := 0, paused := 0, merkle_root := root,
              daily_rewards := dr ++ List.replicate (32 - dr.length) 0,
              daily_snapshots := List.replicate 32 0 }
      else .error .InvalidDailyRewards

-- ── claim_airdrop (lib.rs:92-161) ──

/-- `claim_airdrop` (lib.rs:92-161).  On success returns the updated pool and
the freshly created `UserStake`; a failed `require!`/panic aborts the whole
transaction, so an error carries no state (atomic all-or-nothing).  The
permanent `ClaimMarker` is account-substrate plumbing (its creation fails if
the marker already exists) and holds no program data. -/
def claim_airdrop (Hh : Bytes → Bytes) (pool : Pool) (now : Int) (user : Bytes)
    (amount : Nat) (proof : List Bytes) : Except Err (Pool × UserStake) :=
  if pool.paused ≠ 0 then .error .PoolPaused
  else if pool.terminated ≠ 0 then .error .PoolTerminated
  else if program_expired pool.start_time now then .error .ProgramExpired
  else if ¬ now > pool.start_time then .error .PoolNotStartedYet
  else if 1 ≤ get_current_day pool.start_time now ∧
      pool.snapshot_count < get_current_day pool.start_time now then
    .error .SnapshotRequiredFirst
  else if ¬ verify_merkle_proof Hh proof pool.merkle_root (Hh (user ++ u64le amount)) then
    .error .InvalidMerkleProof
  else if pool.total_staked + amount < U64 then
    if pool.total_airdrop_claimed + amount < U64 then
      if pool.total_airdrop_claimed + amount ≤ AIRDROP_POOL then
        .ok ({ pool with total_staked := pool.total_staked + amount,
                         total_airdrop_claimed := pool.total_airdrop_claimed + amount },
             { staked_amount := amount, claim_day := get_current_day pool.start_time now })
      else .error .AirdropPoolExhausted
    else .error .Overflow
  else .error .Overflow

-- ── snapshot (lib.rs:166-209) ──

/-- The snapshot fill loop (lib.rs:185-190): for `d` in
`[lastd, cur)`, slots still holding the `0` sentinel are set to `total`.
(The guard `1 ≤ cur ≤ TOTAL_DAYS = 20 < 32` keeps the Rust loop in bounds.) -/
def fillGo (total lastd cur : Nat) : Nat → List Nat → List Nat
  | _, [] => []
  | d, v :: vs =>
    (if lastd ≤ d ∧ d < cur ∧ v = 0 then total else v) :: fillGo total lastd cur (d + 1) vs

/-- The snapshot array after the fill loop. -/
def fillSnaps (total lastd cur : Nat) (snaps : List Nat) : List Nat :=
  fillGo total lastd cur 0 snaps

/-- The `wrote` flag (lib.rs:182-190): true iff some day in `[lastd, cur)` still
held the `0` sentinel. -/
def anyZeroInRange (snaps : List Nat) (lastd cur : Nat) : Bool :=
  (List.range' lastd (cur - lastd)).any (fun d => snaps.getD d 0 == 0)

/-- `snapshot` (lib.rs:166-209).  Returns the updated pool and the `wrote`
flag; `snapshot_count` is unconditionally set to the (capped) current day. -/
def snapshotOp (pool : Pool) (now : Int) : Except Err (Pool × Bool) :=
  if pool.paused ≠ 0 then .error .PoolPaused
  else if pool.terminated ≠ 0 then .error .PoolTerminated
  else if ¬ (1 ≤ get_current_day pool.start_time now ∧
      get_current_day pool.start_time now ≤ TOTAL_DAYS) then
    .error .InvalidDay
  else
    .ok ({ pool with
            daily_snapshots :=
              fillSnaps pool.total_staked pool.snapshot_count
                (get_current_day pool.start_time now) pool.daily_snapshots,
            snapshot_count := get_current_day pool.start_time now },
         anyZeroInRange pool.daily_snapshots pool.snapshot_count
           (get_current_day pool.start_time now))

-- ── unstake (lib.rs:214-286) ──

/-- `unstake` (lib.rs:214-286), with the *documented* reward semantics
("Sends principal + all accumulated rewards", lib.rs:211): when the program is
not expired, `rewards = calculate_user_rewards(...)`.  NOTE: the source text
at lib.rs:235-242 has a stray semicolon after the `calculate_user_rewards`
call, so the written `else` block evaluates to `()` and the crate does not even
type-check (if/else arms of type `{integer}` vs `()`); see `unstake_literal`
for the value-discarding reading.  On success returns
(updated pool, remaining pool balance, amount transferred to the user). -/
def unstake (pool : Pool) (st : UserStake) (now : Int) (balance : Nat) :
    Except Err (Pool × Nat × Nat) :=
  if ¬ st.staked_amount > 0 then .error .NothingStaked
  else if 1 ≤ get_current_day pool.start_time now ∧
      pool.snapshot_count < get_current_day pool.start_time now then
    .error .SnapshotRequiredFirst
  else
    match (if program_expired pool.start_time now then some 0 else
      calculate_user_rewards st.staked_amount st.claim_day pool.snapshot_count
        pool.daily_rewards pool.daily_snapshots) with
    | none => .error .Overflow
    | some rewards =>
      if st.staked_amount + rewards < U64 then
        if st.staked_amount + rewards ≤ balance then
          if st.staked_amount ≤ pool.total_staked then
            .ok ({ pool with total_staked := pool.total_staked - st.staked_amount },
                 balance - (st.staked_amount + rewards), st.staked_amount + rewards)
          else .error .Overflow
        else .error .InsufficientBalance
      else .error .Overflow

/-- `unstake` under the value-discarding reading of the stray semicolon at
lib.rs:241: the computed `calculate_user_rewards(...)` value is dropped and the
non-expired payout is the principal alone. -/
def unstake_literal (pool : Pool) (st : UserStake) (now : Int) (balance : Nat) :
    Except Err (Pool × Nat × Nat) :=
  if ¬ st.staked_amount > 0 then .error .NothingStaked
  else if 1 ≤ get_current_day pool.start_time now ∧
      pool.snapshot_count < get_current_day pool.start_time now then
    .error .SnapshotRequiredFirst
  else if st.staked_amount + 0 < U64 then
    if st.staked_amount + 0 ≤ balance then
      if st.staked_amount ≤ pool.total_staked then
        .ok ({ pool with total_staked := pool.total_staked - st.staked_amount },
             balance - (st.staked_amount + 0), st.staked_amount + 0)
      else .error .Overflow
    else .error .InsufficientBalance
  else .error .Overflow

-- ── terminate_pool (lib.rs:289-335) ──

/-- `terminate_pool` (lib.rs:289-335).  On success returns
(updated pool, remaining balance, drained amount).  `reserved` uses
`saturating_add`, `drainable` uses `saturating_sub` (Nat subtraction). -/
def terminate_pool (pool : Pool) (balance : Nat) : Except Err (Pool × Nat × Nat) :=
  if ¬ pool.terminated = 0 then .error .AlreadyTerminated
  else if ¬ TOTAL_DAYS ≤ pool.snapshot_count then .error .SnapshotsNotCompleted
  else
    let reserved := min (pool.total_staked + STAKING_POOL) (U64 - 1)
    let drainable := balance - reserved
    .ok ({ pool with terminated := 1 }, balance - drainable, drainable)

-- ── recover_expired_tokens (lib.rs:383-422) ──

/-- `recover_expired_tokens` (lib.rs:383-422).  The pool record itself is not
modified; returns (remaining balance, recovered amount). -/
def recover_expired_tokens (pool : Pool) (now : Int) (balance : Nat) :
    Except Err (Nat × Nat) :=
  if ¬ program_expired pool.start_time now = true then .error .ExitWindowNotFinished
  else
    let amount := balance - pool.total_staked
    if ¬ amount > 0 then .error .NothingToRecover
    else .ok (balance - amount, amount)

-- ── pause_pool / unpause_pool (lib.rs:479-510) ──

/-- `pause_pool` (lib.rs:479-493). -/
def pause_pool (pool : Pool) : Except Err Pool :=
  if ¬ pool.paused = 0 then .error .AlreadyPaused
  else if ¬ pool.terminated = 0 then .error .PoolTerminated
  else .ok { pool with paused := 1 }

/-- `unpause_pool` (lib.rs:496-510). -/
def unpause_pool (pool : Pool) : Except Err Pool :=
  if ¬ pool.paused = 1 then .error .PoolNotPaused
  else if ¬ pool.terminated = 0 then .error .PoolTerminated
  else .ok { pool with paused := 0 }

-- ── Operation traces over the shared pool state ──

/-- The mutable on-chain world the operations touch: the pool record plus the
pool token account's balance (`pool_token_account.amount`). -/
structure World where
  pool : Pool
  balance : Nat
deriving DecidableEq

/-- One invocation of a state-changing instruction (`close_pool` destroys the
pool record and ends its life, so it is not part of a trace). -/
inductive Op where
  | claimOp (user : Bytes) (amount : Nat) (proof : List Bytes)
  | snapOp
  | unstakeOp (st : UserStake)
  | terminateOp
  | recoverOp
  | pauseOp
  | unpauseOp
deriving DecidableEq

/-- Apply one instruction at clock value `t`; a failed instruction aborts the
whole transaction, leaving the world unchanged. -/
def applyOp (Hh : Bytes → Bytes) (w : World) (t : Int) : Op → World
  | .claimOp u a pf =>
    match claim_airdrop Hh w.pool t u a pf with
    | .ok (p, _) => { pool := p, balance := w.balance }
    | .error _ => w
  | .snapOp =>
    match snapshotOp w.pool t with
    | .ok (p, _) => { pool := p, balance := w.balance }
    | .error _ => w
  | .unstakeOp st =>
    match unstake w.pool st t w.balance with
    | .ok (p, b, _) => { pool := p, balance := b }
    | .error _ => w
  | .terminateOp =>
    match terminate_pool w.pool w.balance with
    | .ok (p, b, _) => { pool := p, balance := b }
    | .error _ => w
  | .recoverOp =>
    match recover_expired_tokens w.pool t w.balance with
    | .ok (b, _) => { pool := w.pool, balance := b }
    | .error _ => w
  | .pauseOp =>
    match pause_pool w.pool with
    | .ok p => { pool := p, balance := w.balance }
    | .error _ => w
  | .unpauseOp =>
    match unpause_pool w.pool with
    | .ok p => { pool := p, balance := w.balance }
    | .error _ => w

/-- Run a timestamped list of instructions. -/
def run (Hh : Bytes → Bytes) (w : World) : List (Int × Op) → World
  | [] => w
  | (t, op) :: rest => run Hh (applyOp Hh w t op) rest

/-- Clock values along a trace never decrease (starting from `t`). -/
def timesMono : Int → List (Int × Op) → Prop
  | _, [] => True
  | t, (t1, _) :: rest => t ≤ t1 ∧ timesMono t1 rest

/-- Reachability invariant tying `snapshot_count` to the clock: it is at most
`TOTAL_DAYS` and at most the current (capped) day.  It holds at
initialization (`snapshot_count = 0`) for every clock value. -/
def InvW (w : World) (t : Int) : Prop :=
  w.pool.snapshot_count ≤ TOTAL_DAYS ∧
  w.pool.snapshot_count ≤ get_current_day w.pool.start_time t

/-- Run a list of claim transactions, stopping at the first failure. -/
def runClaims (Hh : Bytes → Bytes) (pool : Pool) :
    List (Int × Bytes × Nat × List Bytes) → Except Err Pool
  | [] => .ok pool
  | (t, u, a, pf) :: rest =>
    match claim_airdrop Hh pool t u a pf with
    | .ok (p, _) => runClaims Hh p rest
    | .error e => .error e

-- ── Commitment tree (modelled from the spec) ──

/-- Modelled from the spec: the off-chain commitment structure is not part of
this repository; §4.1 specifies a binary Merkle tree whose internal node hash
orders the two children byte-wise (lexicographically smaller first) before
hashing, leaves being the hashes of the committed byte strings. -/
inductive MerkleTree where
  | leaf (data : Bytes)
  | node (l r : MerkleTree)

/-- Modelled from the spec: the root digest of a commitment tree, using the
same byte-wise tie-break ordering as `verify_merkle_proof`. -/
def MerkleTree.root (Hh : Bytes → Bytes) : MerkleTree → Bytes
  | .leaf d => Hh d
  | .node l r =>
    if byteLe (MerkleTree.root Hh l) (MerkleTree.root Hh r) then
      Hh (MerkleTree.root Hh l ++ MerkleTree.root Hh r)
    else Hh (MerkleTree.root Hh r ++ MerkleTree.root Hh l)

/-- Modelled from the spec: the committed data and sibling proof at a given
root-to-leaf path (`false` = left child); the proof lists siblings bottom-up,
the order `verify_merkle_proof` consumes them in. -/
def MerkleTree.leafProof (Hh : Bytes → Bytes) : MerkleTree → List Bool → Option (Bytes × List Bytes)
  | .leaf d, [] => some (d, [])
  | .node l r, false :: bs =>
    match MerkleTree.leafProof Hh l bs with
    | some (d, pf) => some (d, pf ++ [MerkleTree.root Hh r])
    | none => none
  | .node l r, true :: bs =>
    match MerkleTree.leafProof Hh r bs with
    | some (d, pf) => some (d, pf ++ [MerkleTree.root Hh l])
    | none => none
  | _, _ => none

-- ── Generic helpers ──

instance {ε α : Type} [DecidableEq ε] [DecidableEq α] : DecidableEq (Except ε α)
  | .error a, .error b =>
    if h : a = b then isTrue (congrArg Except.error h)
    else isFalse (fun hc => h (Except.error.inj hc))
  | .error _, .ok _ => isFalse (fun hc => Except.noConfusion hc)
  | .ok _, .error _ => isFalse (fun hc => Except.noConfusion hc)
  | .ok a, .ok b =>
    if h : a = b then isTrue (congrArg Except.ok h)
    else isFalse (fun hc => h (Except.ok.inj hc))

lemma get_current_day_le (s n : Int) : get_current_day s n ≤ TOTAL_DAYS := by
  unfold get_current_day
  split
  · exact Nat.zero_le _
  · simp only []
    split
    · exact Nat.le_refl _
    · omega

lemma get_current_day_mono (s : Int) {t t1 : Int} (h : t ≤ t1) :
    get_current_day s t ≤ get_current_day s t1 := by
  unfold get_current_day
  by_cases h1 : t ≤ s
  · simp [h1]
  · have h2 : ¬ t1 ≤ s := by omega
    simp only [h1, h2, if_false]
    have hel : (t - s).toNat ≤ (t1 - s).toNat := Int.toNat_le_toNat (by omega)
    have hdiv : (t - s).toNat / SECONDS_PER_DAY ≤ (t1 - s).toNat / SECONDS_PER_DAY :=
      Nat.div_le_div_right hel
    split <;> split <;> omega

lemma program_expired_iff (s n : Int) : program_expired s n = true ↔ n > exit_deadline s := by
  unfold program_expired
  exact decide_eq_true_iff

/-- C9: `get_current_day` is 0 at or before `start_time` and otherwise the
elapsed-seconds quotient capped at `TOTAL_DAYS = 20` (so every call site sees a
capped day index); `exit_deadline` is `start_time + 35·86400`, and
`program_expired` holds exactly strictly after it. -/
theorem epoch_clock_c9 (s n : Int) :
    get_current_day s n = (if n ≤ s then 0 else min ((n - s).toNat / 86400) 20) ∧
    get_current_day s n ≤ TOTAL_DAYS ∧
    exit_deadline s = s + (35 * 86400 : Int) ∧
    (program_expired s n = true ↔ n > exit_deadline s) := by
  refine ⟨?_, get_current_day_le s n, ?_, program_expired_iff s n⟩
  · unfold get_current_day SECONDS_PER_DAY TOTAL_DAYS
    split
    · rfl
    · simp only []
      split <;> omega
  · unfold exit_deadline TOTAL_DAYS EXIT_WINDOW_DAYS SECONDS_PER_DAY
    norm_num

-- ── C8: recover_expired_tokens ──

lemma recover_ok_eq (pool : Pool) (now : Int) (balance : Nat)
    (h1 : now > exit_deadline pool.start_time) (h2 : pool.total_staked < balance) :
    recover_expired_tokens pool now balance =
      .ok (pool.total_staked, balance - pool.total_staked) := by
  unfold recover_expired_tokens
  have e1 : program_expired pool.start_time now = true := (program_expired_iff _ _).2 h1
  have e2 : balance - (balance - pool.total_staked) = pool.total_staked := by omega
  have e3 : 0 < balance - pool.total_staked := by omega
  simp [e1, e2, e3]

lemma recover_err_not_expired (pool : Pool) (now : Int) (balance : Nat)
    (h1 : ¬ now > exit_deadline pool.start_time) :
    recover_expired_tokens pool now balance = .error .ExitWindowNotFinished := by
  unfold recover_expired_tokens
  have e1 : program_expired pool.start_time now = false := by
    simp [program_expired]
    omega
  simp [e1]

lemma recover_err_nothing (pool : Pool) (now : Int) (balance : Nat)
    (h2 : ¬ pool.total_staked < balance) :
    recover_expired_tokens pool now balance = .error .ExitWindowNotFinished ∨
    recover_expired_tokens pool now balance = .error .NothingToRecover := by
  unfold recover_expired_tokens
  by_cases h1 : program_expired pool.start_time now = true
  · right
    have e3 : ¬ balance - pool.total_staked > 0 := by omega
    simp [h1, e3]
  · left
    simp at h1
    simp [h1]

/-- C8 (amended): recovery is permitted exactly when `now` is *strictly* past
`exit_deadline` and there is something beyond `total_staked` to sweep; the
swept amount is exactly `balance − total_staked`, leaving `total_staked`
behind (the principal-protecting variant). -/
theorem recover_expired_c8 (pool : Pool) (now : Int) (balance : Nat) :
    ((∃ r, recover_expired_tokens pool now balance = .ok r) ↔
      (now > exit_deadline pool.start_time ∧ pool.total_staked < balance)) ∧
    (∀ b a, recover_expired_tokens pool now balance = .ok (b, a) →
      a = balance - pool.total_staked ∧ b = pool.total_staked) := by
  constructor
  · constructor
    · rintro ⟨r, hr⟩
      by_cases h1 : now > exit_deadline pool.start_time
      · by_cases h2 : pool.total_staked < balance
        · exact ⟨h1, h2⟩
        · rcases recover_err_nothing pool now balance h2 with h | h <;>
            rw [h] at hr <;> exact absurd hr (by simp)
      · rw [recover_err_not_expired pool now balance h1] at hr
        exact absurd hr (by simp)
    · rintro ⟨h1, h2⟩
      exact ⟨_, recover_ok_eq pool now balance h1 h2⟩
  · intro b a hr
    by_cases h1 : now > exit_deadline pool.start_time
    · by_cases h2 : pool.total_staked < balance
      · rw [recover_ok_eq pool now balance h1 h2] at hr
        simp only [Except.ok.injEq, Prod.mk.injEq] at hr
        exact ⟨hr.2.symm, hr.1.symm⟩
      · rcases recover_err_nothing pool now balance h2 with h | h <;>
          rw [h] at hr <;> exact absurd hr (by simp)
    · rw [recover_err_not_expired pool now balance h1] at hr
      exact absurd hr (by simp)

def poolC8 : Pool :=
  { start_time := 0, total_staked := 0, total_airdrop_claimed := 0, snapshot_count := 20,
    terminated := 0, paused := 0, merkle_root := [],
    daily_rewards := List.replicate 32 0, daily_snapshots := List.replicate 32 0 }

/-- C8 counterexample: at `now = exit_deadline` exactly (with a positive
sweepable surplus) the operation is rejected, although the claim says recovery
is permitted whenever `now ≥ exit_deadline`. -/
theorem recover_expired_c8_cex :
    (3024000 : Int) ≥ exit_deadline poolC8.start_time ∧
    poolC8.total_staked < 100 ∧
    recover_expired_tokens poolC8 3024000 100 = .error .ExitWindowNotFinished := by
  refine ⟨by decide, by decide, by decide⟩

/-- C8 witness: a successful recovery strictly after the deadline sweeps
exactly `balance − total_staked`. -/
theorem recover_expired_c8_witness :
    recover_expired_tokens poolC8 3024001 100 = .ok (0, 100) ∧
    (100 : Nat) = 100 - poolC8.total_staked ∧ (0 : Nat) = poolC8.total_staked := by
  have h := (recover_expired_c8 poolC8 3024001 100).2 0 100 (by decide)
  exact ⟨by decide, h.1, h.2⟩

-- ── C3: terminate_pool ──

lemma terminate_ok_eq (pool : Pool) (balance : Nat)
    (h1 : pool.terminated = 0) (h2 : TOTAL_DAYS ≤ pool.snapshot_count) :
    terminate_pool pool balance =
      .ok ({ pool with terminated := 1 },
           balance - (balance - min (pool.total_staked + STAKING_POOL) (U64 - 1)),
           balance - min (pool.total_staked + STAKING_POOL) (U64 - 1)) := by
  unfold terminate_pool
  simp [h1, h2]

lemma terminate_err (pool : Pool) (balance : Nat)
    (h : ¬ (pool.terminated = 0 ∧ TOTAL_DAYS ≤ pool.snapshot_count)) :
    terminate_pool pool balance = .error .AlreadyTerminated ∨
    terminate_pool pool balance = .error .SnapshotsNotCompleted := by
  unfold terminate_pool
  by_cases h1 : pool.terminated = 0
  · right
    have h2 : ¬ TOTAL_DAYS ≤ pool.snapshot_count := fun hc => h ⟨h1, hc⟩
    simp [h1, h2]
  · left
    simp [h1]

lemma terminate_saturating_sub (pool : Pool) (balance : Nat) (hbal : balance < U64) :
    balance - min (pool.total_staked + STAKING_POOL) (U64 - 1) =
      balance - (pool.total_staked + STAKING_POOL) := by
  rcases Nat.le_total (pool.total_staked + STAKING_POOL) (U64 - 1) with hle | hle
  · rw [min_eq_left hle]
  · rw [min_eq_right hle]
    omega

/-- C3: termination succeeds exactly when the pool is not yet terminated and
`snapshot_count ≥ TOTAL_DAYS`, and (for any u64 balance) the drained amount is
exactly `max(balance − (total_staked + STAKING_POOL), 0)` — never more than the
balance minus the reservation for all outstanding principal plus the full
reward budget. -/
theorem terminate_pool_c3 :
    (∀ (pool : Pool) (balance : Nat), (∃ r, terminate_pool pool balance = .ok r) ↔
      (pool.terminated = 0 ∧ TOTAL_DAYS ≤ pool.snapshot_count)) ∧
    (∀ (pool : Pool) (balance : Nat) (p : Pool) (b a : Nat),
      balance < U64 → terminate_pool pool balance = .ok (p, b, a) →
      a = balance - (pool.total_staked + STAKING_POOL) ∧
      p.terminated = 1 ∧ b = balance - a) := by
  constructor
  · intro pool balance
    constructor
    · rintro ⟨r, hr⟩
      by_cases h : pool.terminated = 0 ∧ TOTAL_DAYS ≤ pool.snapshot_count
      · exact h
      · rcases terminate_err pool balance h with he | he <;>
          rw [he] at hr <;> exact absurd hr (by simp)
    · rintro ⟨h1, h2⟩
      exact ⟨_, terminate_ok_eq pool balance h1 h2⟩
  · intro pool balance p b a hbal hr
    by_cases h : pool.terminated = 0 ∧ TOTAL_DAYS ≤ pool.snapshot_count
    · rw [terminate_ok_eq pool balance h.1 h.2] at hr
      simp only [Except.ok.injEq, Prod.mk.injEq] at hr
      obtain ⟨hp, hb, ha⟩ := hr
      refine ⟨?_, ?_, ?_⟩
      · rw [← ha, terminate_saturating_sub pool balance hbal]
      · rw [← hp]
      · rw [← hb, ← ha]
    · rcases terminate_err pool balance h with he | he <;>
        rw [he] at hr <;> exact absurd hr (by simp)

def poolC3 : Pool :=
  { start_time := 0, total_staked := 5, total_airdrop_claimed := 5, snapshot_count := 20,
    terminated := 0, paused := 0, merkle_root := [],
    daily_rewards := List.replicate 32 0, daily_snapshots := List.replicate 32 0 }

/-- C3 witness: a concrete termination with balance `total_staked +
STAKING_POOL + 7` drains exactly 7 and marks the pool terminated. -/
theorem terminate_pool_c3_witness :
    (7 : Nat) = (STAKING_POOL + 12) - (poolC3.total_staked + STAKING_POOL) ∧
    ({ poolC3 with terminated := 1 } : Pool).terminated = 1 ∧
    (STAKING_POOL + 5 : Nat) = (STAKING_POOL + 12) - 7 := by
  have h := terminate_pool_c3.2 poolC3 (STAKING_POOL + 12)
    { poolC3 with terminated := 1 } (STAKING_POOL + 5) 7 (by decide) (by decide)
  exact ⟨h.1, h.2.1, h.2.2⟩

-- ── C4: calculate_user_rewards vs the spec sum ──

lemma get?_eq_some_getD (l : List Nat) (d : Nat) (h : d < l.length) :
    l.get? d = some (l.getD d 0) := by
  rw [List.get?_eq_getElem?, List.getElem?_eq_getElem h]
  rw [List.getD_eq_getElem?_getD, List.getElem?_eq_getElem h]
  rfl

lemma getD_mem (l : List Nat) (d : Nat) (h : d < l.length) : l.getD d 0 ∈ l := by
  rw [List.getD_eq_getElem?_getD, List.getElem?_eq_getElem h]
  exact List.getElem_mem h

lemma mul_lt_U128 (a b : Nat) (ha : a < U64) (hb : b < U64) : a * b < U128 := by
  unfold U64 at ha hb
  unfold U128
  calc a * b < 2 ^ 64 * 2 ^ 64 := Nat.mul_lt_mul'' ha hb
    _ = 2 ^ 128 := by norm_num

lemma calcFold_eq (staked : Nat) (rewards snapshots : List Nat)
    (hstk : staked < U64) (hrw : ∀ r ∈ rewards, r < U64) :
    ∀ (ds : List Nat) (acc : Nat),
      (∀ d ∈ ds, d < snapshots.length ∧ d < rewards.length) →
      acc + ((ds.map (fun d => if snapshots.getD d 0 = 0 then 0
              else staked * rewards.getD d 0 / snapshots.getD d 0)).sum) < U128 →
      calcFold staked rewards snapshots ds acc =
        some (acc + ((ds.map (fun d => if snapshots.getD d 0 = 0 then 0
              else staked * rewards.getD d 0 / snapshots.getD d 0)).sum)) := by
  intro ds
  induction ds with
  | nil =>
    intro acc _ _
    simp [calcFold]
  | cons d ds ih =>
    intro acc hidx hbound
    have hd := hidx d (List.mem_cons_self d ds)
    have hds : ∀ x ∈ ds, x < snapshots.length ∧ x < rewards.length :=
      fun x hx => hidx x (List.mem_cons_of_mem d hx)
    have hsn := get?_eq_some_getD snapshots d hd.1
    rw [List.map_cons, List.sum_cons] at hbound
    by_cases hz : snapshots.getD d 0 = 0
    · rw [if_pos hz] at hbound
      simp only [calcFold, hsn]
      rw [if_pos hz, ih acc hds (by omega)]
      congr 1
      rw [List.map_cons, List.sum_cons, if_pos hz, Nat.zero_add]
    · have hrww := get?_eq_some_getD rewards d hd.2
      have hmul : staked * rewards.getD d 0 < U128 :=
        mul_lt_U128 staked (rewards.getD d 0) hstk (hrw _ (getD_mem rewards d hd.2))
      rw [if_neg hz] at hbound
      have hacc : acc + staked * rewards.getD d 0 / snapshots.getD d 0 < U128 := by omega
      simp only [calcFold, hsn, hrww]
      rw [if_neg hz, if_pos hmul, if_pos hacc, ih _ hds (by omega)]
      congr 1
      rw [List.map_cons, List.sum_cons, if_neg hz]
      omega

lemma mem_rangeAux {claim_day snapshot_count d : Nat}
    (hd : d ∈ List.range' claim_day (snapshot_count - claim_day)) :
    claim_day ≤ d ∧ d < snapshot_count := by
  rw [List.mem_range'_1] at hd
  omega

/-- C4 (amended): for valid u64 inputs (`staked_amount` and each
`daily_rewards` entry below `2^64`), `snapshot_count ≤ 32` (array bounds) and a
spec sum below `2^128` (no u128 overflow), `calculate_user_rewards` returns the
sum over epochs `d ∈ [claim_day, snapshot_count)` with `daily_snapshots[d] > 0`
of `floor(staked·daily_rewards[d]/daily_snapshots[d])` **reduced modulo 2^64**
(the final `as u64` cast); it equals the sum exactly whenever the sum is below
`2^64`.  Epochs before `claim_day` and zero-snapshot epochs contribute 0 by
construction of the sum's index range. -/
theorem calculate_user_rewards_c4 (staked claim_day snapshot_count : Nat)
    (rewards snapshots : List Nat)
    (hstk : staked < U64) (hrw : ∀ r ∈ rewards, r < U64)
    (hrl : 32 ≤ rewards.length) (hsl : 32 ≤ snapshots.length)
    (hcnt : snapshot_count ≤ 32)
    (hsum : rewardsSpecSum staked claim_day snapshot_count rewards snapshots < U128) :
    calculate_user_rewards staked claim_day snapshot_count rewards snapshots =
      some (rewardsSpecSum staked claim_day snapshot_count rewards snapshots % U64) ∧
    (rewardsSpecSum staked claim_day snapshot_count rewards snapshots < U64 →
      calculate_user_rewards staked claim_day snapshot_count rewards snapshots =
        some (rewardsSpecSum staked claim_day snapshot_count rewards snapshots)) := by
  have hidx : ∀ d ∈ List.range' claim_day (snapshot_count - claim_day),
      d < snapshots.length ∧ d < rewards.length := by
    intro d hd
    have := mem_rangeAux hd
    omega
  have hbound : 0 + rewardsSpecSum staked claim_day snapshot_count rewards snapshots < U128 := by
    omega
  have h := calcFold_eq staked rewards snapshots hstk hrw
    (List.range' claim_day (snapshot_count - claim_day)) 0 hidx hbound
  have hmain : calculate_user_rewards staked claim_day snapshot_count rewards snapshots =
      some (rewardsSpecSum staked claim_day snapshot_count rewards snapshots % U64) := by
    unfold calculate_user_rewards
    rw [h]
    unfold rewardsSpecSum
    simp
  refine ⟨hmain, fun hlt => ?_⟩
  rw [hmain, Nat.mod_eq_of_lt hlt]

def rwC4 : List Nat := (U64 - 1) :: List.replicate 31 0

def snC4 : List Nat := 1 :: List.replicate 31 0

/-- C4 counterexample: with the (type-valid u64) inputs `staked = 2^64 − 1`,
`claim_day = 0`, `snapshot_count = 1`, `daily_rewards[0] = 2^64 − 1`,
`daily_snapshots[0] = 1`, the double-width sum is `(2^64 − 1)^2` but the
function returns it truncated by the final `as u64` cast, i.e. `1` — so the
result does **not** equal the claimed sum. -/
theorem calculate_user_rewards_c4_cex :
    calculate_user_rewards (U64 - 1) 0 1 rwC4 snC4 = some 1 ∧
    rewardsSpecSum (U64 - 1) 0 1 rwC4 snC4 = (U64 - 1) * (U64 - 1) ∧
    ¬ calculate_user_rewards (U64 - 1) 0 1 rwC4 snC4 =
        some (rewardsSpecSum (U64 - 1) 0 1 rwC4 snC4) := by
  refine ⟨by decide, by decide, by decide⟩

def rwC4w : List Nat := 1000 :: List.replicate 31 0

def snC4w : List Nat := 100 :: List.replicate 31 0

/-- C4 witness: at a concrete in-range input the amended theorem applies and
the function returns the exact spec sum. -/
theorem calculate_user_rewards_c4_witness :
    calculate_user_rewards 100 0 1 rwC4w snC4w =
      some (rewardsSpecSum 100 0 1 rwC4w snC4w % U64) ∧
    calculate_user_rewards 100 0 1 rwC4w snC4w =
      some (rewardsSpecSum 100 0 1 rwC4w snC4w) := by
  have h := calculate_user_rewards_c4 100 0 1 rwC4w snC4w (by decide) (by decide)
    (by decide) (by decide) (by decide) (by decide)
  exact ⟨h.1, h.2 (by decide)⟩

-- ── unstake: shared branch lemmas ──

lemma unstake_ok_eq (pool : Pool) (st : UserStake) (now : Int) (balance : Nat) (r : Nat)
    (hstk : 0 < st.staked_amount)
    (hsnap : ¬ (1 ≤ get_current_day pool.start_time now ∧
                pool.snapshot_count < get_current_day pool.start_time now))
    (hrew : (if program_expired pool.start_time now then some 0 else
      calculate_user_rewards st.staked_amount st.claim_day pool.snapshot_count
        pool.daily_rewards pool.daily_snapshots) = some r)
    (hfit : st.staked_amount + r < U64)
    (hbal : st.staked_amount + r ≤ balance)
    (hts : st.staked_amount ≤ pool.total_staked) :
    unstake pool st now balance =
      .ok ({ pool with total_staked := pool.total_staked - st.staked_amount },
           balance - (st.staked_amount + r), st.staked_amount + r) := by
  unfold unstake
  rw [if_neg (show ¬ ¬ st.staked_amount > 0 by omega), if_neg hsnap]
  split
  · rename_i heq
    rw [hrew] at heq
    exact absurd heq (by simp)
  · rename_i rw0 heq
    rw [hrew] at heq
    injection heq with heq
    subst heq
    rw [if_pos hfit, if_pos hbal, if_pos hts]

lemma unstake_err_nothing (pool : Pool) (st : UserStake) (now : Int) (balance : Nat)
    (h : st.staked_amount = 0) :
    unstake pool st now balance = .error .NothingStaked := by
  unfold unstake
  rw [if_pos (by omega)]

lemma unstake_err_snapshot (pool : Pool) (st : UserStake) (now : Int) (balance : Nat)
    (hstk : 0 < st.staked_amount)
    (h : 1 ≤ get_current_day pool.start_time now ∧
         pool.snapshot_count < get_current_day pool.start_time now) :
    unstake pool st now balance = .error .SnapshotRequiredFirst := by
  unfold unstake
  rw [if_neg (show ¬ ¬ st.staked_amount > 0 by omega), if_pos h]

lemma expired_day (s now : Int) (h : program_expired s now = true) :
    get_current_day s now = TOTAL_DAYS := by
  rw [program_expired_iff] at h
  unfold exit_deadline at h
  have hc : ((TOTAL_DAYS + EXIT_WINDOW_DAYS) * SECONDS_PER_DAY : Nat) = 3024000 := by decide
  rw [hc] at h
  push_cast at h
  unfold get_current_day
  rw [if_neg (by omega)]
  have hd : TOTAL_DAYS ≤ (now - s).toNat / SECONDS_PER_DAY := by
    rw [Nat.le_div_iff_mul_le (show 0 < SECONDS_PER_DAY by decide)]
    unfold TOTAL_DAYS SECONDS_PER_DAY
    omega
  simp only []
  rw [if_pos hd]

-- ── C2: expired exit ──

def poolC2 : Pool :=
  { start_time := 0, total_staked := 100, total_airdrop_claimed := 100, snapshot_count := 0,
    terminated := 0, paused := 0, merkle_root := [],
    daily_rewards := List.replicate 32 0, daily_snapshots := List.replicate 32 0 }

/-- C2 counterexample: after the exit deadline (`now = 3024001`, expired) a
participant with a positive stake is *blocked* by the snapshot-coverage guard
(`snapshot_count = 0 < current_day = 20`), so the claimed "always succeeds
once expired" is false on the code. -/
theorem unstake_expired_c2_cex :
    program_expired poolC2.start_time 3024001 = true ∧
    (0 : Nat) < 100 ∧
    unstake poolC2 { staked_amount := 100, claim_day := 0 } 3024001 1000 =
      .error .SnapshotRequiredFirst := by
  refine ⟨by decide, by decide, by decide⟩

/-- C2 (amended): after the exit deadline, an unstake by a participant with
`staked_amount > 0` pays 0 rewards and transfers exactly the principal — but
only provided the snapshot-coverage guard passes, which after expiry means
`snapshot_count ≥ TOTAL_DAYS` (the capped day is 20); the guard is checked
before the expiry test and can block an expired exit (see the
counterexample).  The u64/balance/total_staked side conditions are the
arithmetic panics and the external transfer. -/
theorem unstake_expired_c2 (pool : Pool) (st : UserStake) (now : Int) (balance : Nat)
    (hexp : program_expired pool.start_time now = true)
    (hstk : 0 < st.staked_amount)
    (hsnap : TOTAL_DAYS ≤ pool.snapshot_count)
    (hfit : st.staked_amount < U64)
    (hbal : st.staked_amount ≤ balance)
    (hts : st.staked_amount ≤ pool.total_staked) :
    unstake pool st now balance =
      .ok ({ pool with total_staked := pool.total_staked - st.staked_amount },
           balance - st.staked_amount, st.staked_amount) := by
  have hday := expired_day pool.start_time now hexp
  have h := unstake_ok_eq pool st now balance 0 hstk
    (by rw [hday]; omega)
    (by rw [hexp]; rfl)
    (by omega) (by omega) hts
  rw [h]
  simp

def poolC2w : Pool :=
  { start_time := 0, total_staked := 100, total_airdrop_claimed := 100, snapshot_count := 20,
    terminated := 0, paused := 0, merkle_root := [],
    daily_rewards := List.replicate 32 0, daily_snapshots := List.replicate 32 0 }

/-- C2 witness: with full snapshot coverage the expired exit succeeds, paying
exactly the principal. -/
theorem unstake_expired_c2_witness :
    unstake poolC2w { staked_amount := 100, claim_day := 0 } 3024001 1000 =
      .ok ({ poolC2w with total_staked := 0 }, 900, 100) := by
  have h := unstake_expired_c2 poolC2w { staked_amount := 100, claim_day := 0 } 3024001 1000
    (by decide) (by decide) (by decide) (by decide) (by decide) (by decide)
  exact h

-- ── C1: the stray-semicolon reward bug in unstake ──

def rwC1 : List Nat := 1000 :: List.replicate 31 0

def snC1 : List Nat := 100 :: List.replicate 31 0

def poolC1 : Pool :=
  { start_time := 0, total_staked := 100, total_airdrop_claimed := 100, snapshot_count := 1,
    terminated := 0, paused := 0, merkle_root := [],
    daily_rewards := rwC1, daily_snapshots := snC1 }

def stC1 : UserStake := { staked_amount := 100, claim_day := 0 }

/-- C1 (code-bug evidence): at a guard-passing, non-expired unstake (day 0,
stake 100, one snapshot of 100, day-0 reward budget 1000) the accrued reward
is 1000 ≠ 0, so the payout under the documented semantics
("Sends principal + all accumulated rewards") is 1100 = principal + rewards,
while the literal source — whose stray semicolon at lib.rs:241 discards the
`calculate_user_rewards` result (and makes the crate fail to type-check) —
would pay the principal 100 alone.  The claim describes the documented
semantics; the shipped text cannot produce it. -/
theorem unstake_semicolon_bug_c1 :
    calculate_user_rewards 100 0 1 rwC1 snC1 = some 1000 ∧
    unstake poolC1 stC1 43200 10000 =
      .ok ({ poolC1 with total_staked := 0 }, 8900, 1100) ∧
    unstake_literal poolC1 stC1 43200 10000 =
      .ok ({ poolC1 with total_staked := 0 }, 9900, 100) ∧
    (1100 : Nat) ≠ (100 : Nat) := by
  refine ⟨by decide, by decide, by decide, by decide⟩

-- ── C10: unstake has no lifecycle-status guard ──

lemma unstake_flags (pool : Pool) (st : UserStake) (now : Int) (balance : Nat) (p t : Nat) :
    unstake { pool with paused := p, terminated := t } st now balance =
      Except.map (fun x => ({ x.1 with paused := p, terminated := t }, x.2))
        (unstake pool st now balance) := by
  unfold unstake
  dsimp only
  by_cases h1 : ¬ st.staked_amount > 0
  · rw [if_pos h1, if_pos h1]
    rfl
  · rw [if_neg h1, if_neg h1]
    by_cases h2 : 1 ≤ get_current_day pool.start_time now ∧
        pool.snapshot_count < get_current_day pool.start_time now
    · rw [if_pos h2, if_pos h2]
      rfl
    · rw [if_neg h2, if_neg h2]
      rcases hre : (if program_expired pool.start_time now then some 0 else
        calculate_user_rewards st.staked_amount st.claim_day pool.snapshot_count
          pool.daily_rewards pool.daily_snapshots) with _ | r
      · simp only [hre]
        rfl
      · simp only [hre]
        by_cases h3 : st.staked_amount + r < U64
        · rw [if_pos h3, if_pos h3]
          by_cases h4 : st.staked_amount + r ≤ balance
          · rw [if_pos h4, if_pos h4]
            by_cases h5 : st.staked_amount ≤ pool.total_staked
            · rw [if_pos h5, if_pos h5]
              rfl
            · rw [if_neg h5, if_neg h5]
              rfl
          · rw [if_neg h4, if_neg h4]
            rfl
        · rw [if_neg h3, if_neg h3]
          rfl

/-- C10: `unstake` performs no lifecycle-status check: its result on a pool
with any `paused`/`terminated` values is the result on the original pool (with
the flags merely carried through into the returned record), so neither flag
can cause a failure; it succeeds whenever `staked_amount > 0` and the
snapshot-coverage guard hold (given the benign side conditions: rewards
computed without panic, payout fits u64, pool balance covers it), and its only
guard failures are `NothingStaked` and `SnapshotRequiredFirst` — so a
participant can still exit after the pool is paused or terminated. -/
theorem unstake_lifecycle_free_c10 :
    (∀ (pool : Pool) (st : UserStake) (now : Int) (balance : Nat) (p t : Nat),
      unstake { pool with paused := p, terminated := t } st now balance =
        Except.map (fun x => ({ x.1 with paused := p, terminated := t }, x.2))
          (unstake pool st now balance)) ∧
    (∀ (pool : Pool) (st : UserStake) (now : Int) (balance : Nat) (r : Nat),
      0 < st.staked_amount →
      ¬ (1 ≤ get_current_day pool.start_time now ∧
         pool.snapshot_count < get_current_day pool.start_time now) →
      (if program_expired pool.start_time now then some 0 else
        calculate_user_rewards st.staked_amount st.claim_day pool.snapshot_count
          pool.daily_rewards pool.daily_snapshots) = some r →
      st.staked_amount + r < U64 → st.staked_amount + r ≤ balance →
      st.staked_amount ≤ pool.total_staked →
      unstake pool st now balance =
        .ok ({ pool with total_staked := pool.total_staked - st.staked_amount },
             balance - (st.staked_amount + r), st.staked_amount + r)) ∧
    (∀ (pool : Pool) (st : UserStake) (now : Int) (balance : Nat),
      st.staked_amount = 0 → unstake pool st now balance = .error .NothingStaked) ∧
    (∀ (pool : Pool) (st : UserStake) (now : Int) (balance : Nat),
      0 < st.staked_amount →
      1 ≤ get_current_day pool.start_time now ∧
        pool.snapshot_count < get_current_day pool.start_time now →
      unstake pool st now balance = .error .SnapshotRequiredFirst) :=
  ⟨unstake_flags, unstake_ok_eq, unstake_err_nothing, unstake_err_snapshot⟩

def poolC10 : Pool :=
  { start_time := 0, total_staked := 100, total_airdrop_claimed := 100, snapshot_count := 1,
    terminated := 1, paused := 1, merkle_root := [],
    daily_rewards := List.replicate 32 0, daily_snapshots := List.replicate 32 0 }

/-- C10 witness: a pool that is both paused and terminated still lets the
participant unstake their principal. -/
theorem unstake_lifecycle_free_c10_witness :
    poolC10.paused = 1 ∧ poolC10.terminated = 1 ∧
    unstake poolC10 { staked_amount := 100, claim_day := 0 } 43200 1000 =
      .ok ({ poolC10 with total_staked := 0 }, 900, 100) := by
  have h := unstake_lifecycle_free_c10.2.1 poolC10 { staked_amount := 100, claim_day := 0 }
    43200 1000 0 (by decide) (by decide) (by decide) (by decide) (by decide) (by decide)
  refine ⟨by decide, by decide, ?_⟩
  rw [h]
  decide

-- ── C6: claim accounting ──

lemma init_ok_fields (now start_time : Int) (root : Bytes) (dr : List Nat) (p0 : Pool)
    (h : initialize_pool now start_time root dr = .ok p0) :
    p0.total_staked = 0 ∧ p0.total_airdrop_claimed = 0 ∧ p0.snapshot_count = 0 ∧
    p0.terminated = 0 ∧ p0.paused = 0 := by
  unfold initialize_pool at h
  split at h
  · exact absurd h (by simp)
  · split at h
    · exact absurd h (by simp)
    · split at h
      · injection h with h
        subst h
        exact ⟨rfl, rfl, rfl, rfl, rfl⟩
      · exact absurd h (by simp)

lemma claim_ok_fields (Hh : Bytes → Bytes) (pool : Pool) (now : Int) (user : Bytes)
    (amount : Nat) (proof : List Bytes) (p : Pool) (st : UserStake)
    (h : claim_airdrop Hh pool now user amount proof = .ok (p, st)) :
    p.total_staked = pool.total_staked + amount ∧
    p.total_airdrop_claimed = pool.total_airdrop_claimed + amount ∧
    p.total_airdrop_claimed ≤ AIRDROP_POOL ∧
    p.snapshot_count = pool.snapshot_count ∧
    p.daily_snapshots = pool.daily_snapshots ∧
    p.daily_rewards = pool.daily_rewards ∧
    p.start_time = pool.start_time ∧
    p.paused = pool.paused ∧ p.terminated = pool.terminated := by
  unfold claim_airdrop at h
  repeat' split at h
  all_goals simp only [Except.ok.injEq, Prod.mk.injEq, reduceCtorEq] at h
  obtain ⟨hp, hst⟩ := h
  subst hp
  exact ⟨rfl, rfl, by assumption, rfl, rfl, rfl, rfl, rfl, rfl⟩

lemma claim_over_cap (Hh : Bytes → Bytes) (pool : Pool) (now : Int) (user : Bytes)
    (amount : Nat) (proof : List Bytes)
    (hcap : AIRDROP_POOL < pool.total_airdrop_claimed + amount) :
    ∀ r, claim_airdrop Hh pool now user amount proof ≠ .ok r := by
  rintro ⟨p, st⟩ h
  obtain ⟨h1, h2, h3, _⟩ := claim_ok_fields Hh pool now user amount proof p st h
  omega

lemma runClaims_totals (Hh : Bytes → Bytes) :
    ∀ (cs : List (Int × Bytes × Nat × List Bytes)) (pool p1 : Pool),
      runClaims Hh pool cs = .ok p1 →
      p1.total_staked = pool.total_staked + (cs.map (fun c => c.2.2.1)).sum ∧
      p1.total_airdrop_claimed = pool.total_airdrop_claimed + (cs.map (fun c => c.2.2.1)).sum ∧
      (p1.total_airdrop_claimed ≤ AIRDROP_POOL ∨ p1 = pool) := by
  intro cs
  induction cs with
  | nil =>
    intro pool p1 h
    unfold runClaims at h
    injection h with h
    subst h
    simp
  | cons c cs ih =>
    intro pool p1 h
    obtain ⟨t, u, a, pf⟩ := c
    unfold runClaims at h
    split at h
    · rename_i p st heq
      obtain ⟨h1, h2, h3, _⟩ := claim_ok_fields Hh pool t u a pf p st heq
      obtain ⟨g1, g2, g3⟩ := ih p p1 h
      simp only [List.map_cons, List.sum_cons]
      refine ⟨by omega, by omega, ?_⟩
      left
      rcases g3 with g3 | g3
      · exact g3
      · rw [g3]
        exact h3
    · exact absurd h (by simp)

lemma snapshot_ok_shape (pool : Pool) (now : Int) (p : Pool) (wr : Bool)
    (h : snapshotOp pool now = .ok (p, wr)) :
    p = { pool with
          daily_snapshots := fillSnaps pool.total_staked pool.snapshot_count
            (get_current_day pool.start_time now) pool.daily_snapshots,
          snapshot_count := get_current_day pool.start_time now } ∧
    1 ≤ get_current_day pool.start_time now ∧
    get_current_day pool.start_time now ≤ TOTAL_DAYS ∧
    pool.paused = 0 ∧ pool.terminated = 0 := by
  unfold snapshotOp at h
  split at h
  · exact absurd h (by simp)
  · split at h
    · exact absurd h (by simp)
    · split at h
      · exact absurd h (by simp)
      · simp only [Except.ok.injEq, Prod.mk.injEq] at h
        rename_i h1 h2 h3
        rw [not_not] at h3
        simp only [ne_eq, not_not] at h1 h2
        exact ⟨h.1.symm, h3.1, h3.2, h1, h2⟩

lemma unstake_ok_fields (pool : Pool) (st : UserStake) (now : Int) (balance : Nat)
    (p : Pool) (b a : Nat) (h : unstake pool st now balance = .ok (p, b, a)) :
    p.total_airdrop_claimed = pool.total_airdrop_claimed ∧
    p.snapshot_count = pool.snapshot_count ∧
    p.daily_snapshots = pool.daily_snapshots ∧
    p.start_time = pool.start_time := by
  unfold unstake at h
  repeat' split at h
  all_goals simp only [Except.ok.injEq, Prod.mk.injEq, reduceCtorEq] at h
  obtain ⟨hp, _⟩ := h
  subst hp
  exact ⟨rfl, rfl, rfl, rfl⟩

lemma terminate_ok_shape (pool : Pool) (balance : Nat) (p : Pool) (b a : Nat)
    (h : terminate_pool pool balance = .ok (p, b, a)) :
    p = { pool with terminated := 1 } := by
  unfold terminate_pool at h
  split at h
  · exact absurd h (by simp)
  · split at h
    · exact absurd h (by simp)
    · simp only [Except.ok.injEq, Prod.mk.injEq] at h
      exact h.1.symm

lemma pause_ok_shape (pool : Pool) (p : Pool) (h : pause_pool pool = .ok p) :
    p = { pool with paused := 1 } := by
  unfold pause_pool at h
  split at h
  · exact absurd h (by simp)
  · split at h
    · exact absurd h (by simp)
    · injection h with h
      exact h.symm

lemma unpause_ok_shape (pool : Pool) (p : Pool) (h : unpause_pool pool = .ok p) :
    p = { pool with paused := 0 } := by
  unfold unpause_pool at h
  split at h
  · exact absurd h (by simp)
  · split at h
    · exact absurd h (by simp)
    · injection h with h
      exact h.symm

lemma applyOp_claimed (Hh : Bytes → Bytes) (w : World) (t : Int) (op : Op)
    (hc : w.pool.total_airdrop_claimed ≤ AIRDROP_POOL) :
    (applyOp Hh w t op).pool.total_airdrop_claimed ≤ AIRDROP_POOL := by
  cases op with
  | claimOp u a pf =>
    simp only [applyOp]
    cases hcl : claim_airdrop Hh w.pool t u a pf with
    | ok r =>
      obtain ⟨p, st⟩ := r
      exact (claim_ok_fields Hh w.pool t u a pf p st hcl).2.2.1
    | error e =>
      exact hc
  | snapOp =>
    simp only [applyOp]
    cases hs : snapshotOp w.pool t with
    | ok r =>
      obtain ⟨p, wr⟩ := r
      show p.total_airdrop_claimed ≤ AIRDROP_POOL
      rw [(snapshot_ok_shape w.pool t p wr hs).1]
      exact hc
    | error e =>
      exact hc
  | unstakeOp st =>
    simp only [applyOp]
    cases hu : unstake w.pool st t w.balance with
    | ok r =>
      obtain ⟨p, b, a⟩ := r
      show p.total_airdrop_claimed ≤ AIRDROP_POOL
      rw [(unstake_ok_fields w.pool st t w.balance p b a hu).1]
      exact hc
    | error e =>
      exact hc
  | terminateOp =>
    simp only [applyOp]
    cases ht : terminate_pool w.pool w.balance with
    | ok r =>
      obtain ⟨p, b, a⟩ := r
      show p.total_airdrop_claimed ≤ AIRDROP_POOL
      rw [terminate_ok_shape w.pool w.balance p b a ht]
      exact hc
    | error e =>
      exact hc
  | recoverOp =>
    simp only [applyOp]
    cases hr : recover_expired_tokens w.pool t w.balance with
    | ok r =>
      obtain ⟨b, a⟩ := r
      exact hc
    | error e =>
      exact hc
  | pauseOp =>
    simp only [applyOp]
    cases hp : pause_pool w.pool with
    | ok p =>
      show p.total_airdrop_claimed ≤ AIRDROP_POOL
      rw [pause_ok_shape w.pool p hp]
      exact hc
    | error e =>
      exact hc
  | unpauseOp =>
    simp only [applyOp]
    cases hp : unpause_pool w.pool with
    | ok p =>
      show p.total_airdrop_claimed ≤ AIRDROP_POOL
      rw [unpause_ok_shape w.pool p hp]
      exact hc
    | error e =>
      exact hc

/-- C6: starting from a freshly initialized pool, any sequence of `N`
successful claims with amounts `a_1..a_N` (and no exits) leaves
`total_staked = total_claimed = Σ a_i ≤ AIRDROP_POOL`; a claim whose amount
would push `total_claimed` past `AIRDROP_POOL` never succeeds (the whole
transaction aborts, mutating nothing, since an error carries no state); and
every operation preserves `total_claimed ≤ AIRDROP_POOL`. -/
theorem claims_conservation_c6 :
    (∀ (Hh : Bytes → Bytes) (t0 stt : Int) (root : Bytes) (dr : List Nat) (p0 : Pool)
       (cs : List (Int × Bytes × Nat × List Bytes)) (p1 : Pool),
      initialize_pool t0 stt root dr = .ok p0 →
      runClaims Hh p0 cs = .ok p1 →
      p1.total_staked = (cs.map (fun c => c.2.2.1)).sum ∧
      p1.total_airdrop_claimed = (cs.map (fun c => c.2.2.1)).sum ∧
      (cs.map (fun c => c.2.2.1)).sum ≤ AIRDROP_POOL) ∧
    (∀ (Hh : Bytes → Bytes) (pool : Pool) (now : Int) (user : Bytes) (amount : Nat)
       (proof : List Bytes),
      AIRDROP_POOL < pool.total_airdrop_claimed + amount →
      ∀ r, claim_airdrop Hh pool now user amount proof ≠ .ok r) ∧
    (∀ (Hh : Bytes → Bytes) (w : World) (t : Int) (op : Op),
      w.pool.total_airdrop_claimed ≤ AIRDROP_POOL →
      (applyOp Hh w t op).pool.total_airdrop_claimed ≤ AIRDROP_POOL) := by
  refine ⟨?_, claim_over_cap, applyOp_claimed⟩
  intro Hh t0 stt root dr p0 cs p1 hinit hrun
  obtain ⟨i1, i2, _⟩ := init_ok_fields t0 stt root dr p0 hinit
  obtain ⟨r1, r2, r3⟩ := runClaims_totals Hh cs p0 p1 hrun
  have hcap : p1.total_airdrop_claimed ≤ AIRDROP_POOL := by
    rcases r3 with r3 | r3
    · exact r3
    · rw [r3, i2]
      exact Nat.zero_le _
  refine ⟨by omega, by omega, by omega⟩

def HhW : Bytes → Bytes := fun _ => List.replicate 32 0

def rootW : Bytes := List.replicate 32 0

def drW : List Nat := STAKING_POOL :: List.replicate 19 0

def p0W : Pool :=
  { start_time := 100, total_staked := 0, total_airdrop_claimed := 0, snapshot_count := 0,
    terminated := 0, paused := 0, merkle_root := rootW,
    daily_rewards := drW ++ List.replicate 12 0, daily_snapshots := List.replicate 32 0 }

def p1W : Pool := { p0W with total_staked := 5, total_airdrop_claimed := 5 }

def csW : List (Int × Bytes × Nat × List Bytes) := [(101, [7], 5, [])]

/-- C6 witness: one successful claim of 5 from a fresh pool gives
`total_staked = total_claimed = 5 ≤ AIRDROP_POOL`. -/
theorem claims_conservation_c6_witness :
    p1W.total_staked = (csW.map (fun c => c.2.2.1)).sum ∧
    p1W.total_airdrop_claimed = (csW.map (fun c => c.2.2.1)).sum ∧
    (csW.map (fun c => c.2.2.1)).sum ≤ AIRDROP_POOL :=
  claims_conservation_c6.1 HhW 0 100 rootW drW p0W csW p1W (by decide) (by decide)

-- ── C7: snapshot ledger lemmas ──

lemma fillGo_id (total lastd cur : Nat) (hcur : cur ≤ lastd) :
    ∀ (d0 : Nat) (vs : List Nat), fillGo total lastd cur d0 vs = vs := by
  intro d0 vs
  induction vs generalizing d0 with
  | nil => rfl
  | cons v vs ih =>
    unfold fillGo
    rw [if_neg (by omega), ih]

lemma fillGo_get? (total lastd cur : Nat) :
    ∀ (vs : List Nat) (d0 i : Nat),
      (fillGo total lastd cur d0 vs).get? i =
        (vs.get? i).map (fun v => if lastd ≤ d0 + i ∧ d0 + i < cur ∧ v = 0 then total else v) := by
  intro vs
  induction vs with
  | nil =>
    intro d0 i
    rfl
  | cons v vs ih =>
    intro d0 i
    cases i with
    | zero =>
      simp [fillGo]
    | succ i =>
      show (fillGo total lastd cur (d0 + 1) vs).get? i = _
      rw [ih (d0 + 1) i]
      have e : d0 + 1 + i = d0 + (i + 1) := by omega
      simp only [e]
      rfl
    
lemma fillSnaps_getD_preserve (total lastd cur : Nat) (snaps : List Nat) (i : Nat)
    (h : snaps.getD i 0 ≠ 0) :
    (fillSnaps total lastd cur snaps).getD i 0 = snaps.getD i 0 := by
  unfold fillSnaps
  rw [List.getD_eq_getElem?_getD, List.getD_eq_getElem?_getD,
    ← List.get?_eq_getElem?, ← List.get?_eq_getElem?, fillGo_get?]
  cases hv : snaps.get? i with
  | none => rfl
  | some v =>
    have hvz : v ≠ 0 := by
      rw [List.getD_eq_getElem?_getD, ← List.get?_eq_getElem?, hv] at h
      exact h
    simp [hvz]

lemma snapshot_idem (pool : Pool) (now : Int) (p : Pool) (wr : Bool)
    (h : snapshotOp pool now = .ok (p, wr)) :
    snapshotOp p now = .ok (p, false) := by
  obtain ⟨hp, hday1, hday2, hpa, hte⟩ := snapshot_ok_shape pool now p wr h
  subst hp
  unfold snapshotOp
  rw [if_neg (by simp [hpa]), if_neg (by simp [hte]), if_neg (by
    rw [not_not]
    exact ⟨hday1, hday2⟩)]
  have hfill := fillGo_id pool.total_staked (get_current_day pool.start_time now)
    (get_current_day pool.start_time now) (le_refl _) 0
  simp only [fillSnaps, anyZeroInRange, Nat.sub_self, List.range'_zero, List.any_nil]
  rw [hfill]

lemma applyOp_step (Hh : Bytes → Bytes) (w : World) (t t1 : Int) (op : Op)
    (hInv : InvW w t) (ht : t ≤ t1) :
    InvW (applyOp Hh w t1 op) t1 ∧
    w.pool.snapshot_count ≤ (applyOp Hh w t1 op).pool.snapshot_count ∧
    (∀ i, w.pool.daily_snapshots.getD i 0 ≠ 0 →
      (applyOp Hh w t1 op).pool.daily_snapshots.getD i 0 = w.pool.daily_snapshots.getD i 0) := by
  have hmono := get_current_day_mono w.pool.start_time ht
  have hkeep : InvW w t1 := ⟨hInv.1, le_trans hInv.2 hmono⟩
  cases op with
  | claimOp u a pf =>
    simp only [applyOp]
    cases hcl : claim_airdrop Hh w.pool t1 u a pf with
    | ok r =>
      obtain ⟨p, st⟩ := r
      obtain ⟨_, _, _, f4, f5, _, f7, _, _⟩ := claim_ok_fields Hh w.pool t1 u a pf p st hcl
      refine ⟨⟨?_, ?_⟩, ?_, ?_⟩
      · show p.snapshot_count ≤ TOTAL_DAYS
        rw [f4]
        exact hInv.1
      · show p.snapshot_count ≤ get_current_day p.start_time t1
        rw [f4, f7]
        exact le_trans hInv.2 hmono
      · show w.pool.snapshot_count ≤ p.snapshot_count
        rw [f4]
      · intro i hi
        show p.daily_snapshots.getD i 0 = _
        rw [f5]
    | error e =>
      exact ⟨hkeep, le_refl _, fun i _ => rfl⟩
  | snapOp =>
    simp only [applyOp]
    cases hs : snapshotOp w.pool t1 with
    | ok r =>
      obtain ⟨p, wr⟩ := r
      obtain ⟨hp, hd1, hd2, _, _⟩ := snapshot_ok_shape w.pool t1 p wr hs
      subst hp
      refine ⟨⟨?_, ?_⟩, ?_, ?_⟩
      · show get_current_day w.pool.start_time t1 ≤ TOTAL_DAYS
        exact hd2
      · show get_current_day w.pool.start_time t1 ≤ get_current_day w.pool.start_time t1
        exact le_refl _
      · show w.pool.snapshot_count ≤ get_current_day w.pool.start_time t1
        exact le_trans hInv.2 hmono
      · intro i hi
        show (fillSnaps w.pool.total_staked w.pool.snapshot_count
          (get_current_day w.pool.start_time t1) w.pool.daily_snapshots).getD i 0 = _
        exact fillSnaps_getD_preserve _ _ _ _ i hi
    | error e =>
      exact ⟨hkeep, le_refl _, fun i _ => rfl⟩
  | unstakeOp st =>
    simp only [applyOp]
    cases hu : unstake w.pool st t1 w.balance with
    | ok r =>
      obtain ⟨p, b, a⟩ := r
      obtain ⟨_, f2, f3, f4⟩ := unstake_ok_fields w.pool st t1 w.balance p b a hu
      refine ⟨⟨?_, ?_⟩, ?_, ?_⟩
      · show p.snapshot_count ≤ TOTAL_DAYS
        rw [f2]
        exact hInv.1
      · show p.snapshot_count ≤ get_current_day p.start_time t1
        rw [f2, f4]
        exact le_trans hInv.2 hmono
      · show w.pool.snapshot_count ≤ p.snapshot_count
        rw [f2]
      · intro i hi
        show p.daily_snapshots.getD i 0 = _
        rw [f3]
    | error e =>
      exact ⟨hkeep, le_refl _, fun i _ => rfl⟩
  | terminateOp =>
    simp only [applyOp]
    cases hte : terminate_pool w.pool w.balance with
    | ok r =>
      obtain ⟨p, b, a⟩ := r
      rw [terminate_ok_shape w.pool w.balance p b a hte] at *
      exact ⟨hkeep, le_refl _, fun i _ => rfl⟩
    | error e =>
      exact ⟨hkeep, le_refl _, fun i _ => rfl⟩
  | recoverOp =>
    simp only [applyOp]
    cases hre : recover_expired_tokens w.pool t1 w.balance with
    | ok r =>
      obtain ⟨b, a⟩ := r
      exact ⟨hkeep, le_refl _, fun i _ => rfl⟩
    | error e =>
      exact ⟨hkeep, le_refl _, fun i _ => rfl⟩
  | pauseOp =>
    simp only [applyOp]
    cases hpp : pause_pool w.pool with
    | ok p =>
      rw [pause_ok_shape w.pool p hpp] at *
      exact ⟨hkeep, le_refl _, fun i _ => rfl⟩
    | error e =>
      exact ⟨hkeep, le_refl _, fun i _ => rfl⟩
  | unpauseOp =>
    simp only [applyOp]
    cases hpp : unpause_pool w.pool with
    | ok p =>
      rw [unpause_ok_shape w.pool p hpp] at *
      exact ⟨hkeep, le_refl _, fun i _ => rfl⟩
    | error e =>
      exact ⟨hkeep, le_refl _, fun i _ => rfl⟩

lemma run_mono (Hh : Bytes → Bytes) :
    ∀ (ops : List (Int × Op)) (w : World) (t : Int),
      InvW w t → timesMono t ops →
      w.pool.snapshot_count ≤ (run Hh w ops).pool.snapshot_count ∧
      (run Hh w ops).pool.snapshot_count ≤ TOTAL_DAYS ∧
      (∀ i, w.pool.daily_snapshots.getD i 0 ≠ 0 →
        (run Hh w ops).pool.daily_snapshots.getD i 0 = w.pool.daily_snapshots.getD i 0) := by
  intro ops
  induction ops with
  | nil =>
    intro w t hInv _
    exact ⟨le_refl _, hInv.1, fun i _ => rfl⟩
  | cons q rest ih =>
    intro w t hInv hmono
    obtain ⟨t1, op⟩ := q
    obtain ⟨h1, h2⟩ := hmono
    obtain ⟨hInv1, hmon1, hpres1⟩ := applyOp_step Hh w t t1 op hInv h1
    obtain ⟨g1, g2, g3⟩ := ih (applyOp Hh w t1 op) t1 hInv1 h2
    simp only [run]
    refine ⟨le_trans hmon1 g1, g2, ?_⟩
    intro i hi
    have hmid := hpres1 i hi
    rw [g3 i (by rw [hmid]; exact hi), hmid]

/-- C7: across every sequence of operations with non-decreasing clock values
from a state satisfying the clock invariant (which holds for a freshly
initialized pool at any clock), `snapshot_count` never decreases and never
exceeds `TOTAL_DAYS = 20`, and a non-zero `daily_snapshots[d]` slot is never
changed by any operation (the snapshot fill touches only still-zero slots);
moreover a second snapshot call at the same instant writes no slot and leaves
the pool, including `snapshot_count`, unchanged. -/
theorem snapshot_ledger_c7 :
    (∀ (Hh : Bytes → Bytes) (w : World) (t : Int) (ops : List (Int × Op)),
      InvW w t → timesMono t ops →
      w.pool.snapshot_count ≤ (run Hh w ops).pool.snapshot_count ∧
      (run Hh w ops).pool.snapshot_count ≤ TOTAL_DAYS ∧
      (∀ i, w.pool.daily_snapshots.getD i 0 ≠ 0 →
        (run Hh w ops).pool.daily_snapshots.getD i 0 = w.pool.daily_snapshots.getD i 0)) ∧
    (∀ (t0 stt : Int) (root : Bytes) (dr : List Nat) (p0 : Pool) (b : Nat) (t : Int),
      initialize_pool t0 stt root dr = .ok p0 → InvW ⟨p0, b⟩ t) ∧
    (∀ (pool : Pool) (now : Int) (p : Pool) (wr : Bool),
      snapshotOp pool now = .ok (p, wr) → snapshotOp p now = .ok (p, false)) := by
  refine ⟨fun Hh w t ops hInv hm => run_mono Hh ops w t hInv hm, ?_, snapshot_idem⟩
  intro t0 stt root dr p0 b t hinit
  obtain ⟨_, _, i3, _, _⟩ := init_ok_fields t0 stt root dr p0 hinit
  unfold InvW
  simp only []
  rw [i3]
  exact ⟨Nat.zero_le _, Nat.zero_le _⟩

def w0W : World := { pool := p0W, balance := 0 }

def pIdemW : Pool := { p0W with snapshot_count := 1 }

/-- C7 witness: a concrete snapshot trace from a fresh pool (one snapshot on
day 1) respects monotonicity and the bound, and the immediate second snapshot
is a no-op. -/
theorem snapshot_ledger_c7_witness :
    (w0W.pool.snapshot_count ≤ (run HhW w0W [((86500 : Int), Op.snapOp)]).pool.snapshot_count ∧
      (run HhW w0W [((86500 : Int), Op.snapOp)]).pool.snapshot_count ≤ TOTAL_DAYS ∧
      (∀ i, w0W.pool.daily_snapshots.getD i 0 ≠ 0 →
        (run HhW w0W [((86500 : Int), Op.snapOp)]).pool.daily_snapshots.getD i 0 =
          w0W.pool.daily_snapshots.getD i 0)) ∧
    snapshotOp pIdemW 86500 = .ok (pIdemW, false) := by
  have hInv : InvW w0W 0 := by
    unfold InvW
    exact ⟨by decide, by decide⟩
  have htm : timesMono 0 [((86500 : Int), Op.snapOp)] := by
    unfold timesMono
    exact ⟨by decide, trivial⟩
  exact ⟨snapshot_ledger_c7.1 HhW w0W 0 _ hInv htm,
    snapshot_ledger_c7.2.2 p0W 86500 pIdemW true (by decide)⟩

-- ── C5: byte ordering and commitment-tree completeness (side development) ──

lemma byteLe_false : ∀ (a b : Bytes), byteLe a b = false → byteLe b a = true := by
  intro a
  induction a with
  | nil =>
    intro b h
    cases b with
    | nil => simp [byteLe] at h
    | cons y bs => simp [byteLe] at h
  | cons x as ih =>
    intro b h
    cases b with
    | nil => simp [byteLe]
    | cons y bs =>
      unfold byteLe at h ⊢
      by_cases h1 : x < y
      · rw [if_pos h1] at h
        exact absurd h (by simp)
      · rw [if_neg h1] at h
        by_cases h2 : y < x
        · rw [if_pos h2]
        · rw [if_neg h2] at h
          rw [if_neg h2, if_neg h1]
          exact ih bs h

lemma byteLe_antisymm : ∀ (a b : Bytes), byteLe a b = true → byteLe b a = true → a = b := by
  intro a
  induction a with
  | nil =>
    intro b h1 h2
    cases b with
    | nil => rfl
    | cons y bs => simp [byteLe] at h2
  | cons x as ih =>
    intro b h1 h2
    cases b with
    | nil => simp [byteLe] at h1
    | cons y bs =>
      unfold byteLe at h1 h2
      by_cases hxy : x < y
      · rw [if_neg (by omega), if_pos hxy] at h2
        exact absurd h2 (by simp)
      · by_cases hyx : y < x
        · rw [if_neg hxy, if_pos hyx] at h1
          exact absurd h1 (by simp)
        · have hx : x = y := by omega
          subst hx
          rw [if_neg hxy, if_neg hxy] at h1
          rw [if_neg hxy, if_neg hxy] at h2
          rw [ih bs h1 h2]

lemma fold_step_comm (Hh : Bytes → Bytes) (a b : Bytes) :
    (if byteLe a b then Hh (a ++ b) else Hh (b ++ a)) =
    (if byteLe b a then Hh (b ++ a) else Hh (a ++ b)) := by
  by_cases h1 : byteLe a b = true
  · rw [if_pos h1]
    by_cases h2 : byteLe b a = true
    · rw [if_pos h2, byteLe_antisymm a b h1 h2]
    · rw [if_neg h2]
  · have h1f : byteLe a b = false := by
      cases hab : byteLe a b
      · rfl
      · exact absurd hab h1
    rw [if_pos (byteLe_false a b h1f), if_neg h1]

/-- Modelled from the spec (§4.1; the off-chain proof generator is not part of
this repository): every committed leaf with its correctly-ordered sibling
proof verifies against the tree's root — the byte-wise tie-break makes the
fold agree with the node hash regardless of which side the accumulator came
from. -/
lemma merkle_completeness (Hh : Bytes → Bytes) :
    ∀ (t : MerkleTree) (path : List Bool) (d : Bytes) (pf : List Bytes),
      MerkleTree.leafProof Hh t path = some (d, pf) →
      verify_merkle_proof Hh pf (MerkleTree.root Hh t) (Hh d) = true := by
  intro t
  induction t with
  | leaf data =>
    intro path d pf h
    cases path with
    | nil =>
      unfold MerkleTree.leafProof at h
      simp only [Option.some.injEq, Prod.mk.injEq] at h
      obtain ⟨hd, hpf⟩ := h
      subst hd
      subst hpf
      unfold verify_merkle_proof merkleFold MerkleTree.root
      simp
    | cons b bs =>
      exact absurd h (by cases b <;> simp [MerkleTree.leafProof])
  | node l r ihl ihr =>
    intro path d pf h
    cases path with
    | nil =>
      exact absurd h (by simp [MerkleTree.leafProof])
    | cons b bs =>
      cases b with
      | false =>
        unfold MerkleTree.leafProof at h
        cases hc : MerkleTree.leafProof Hh l bs with
        | none =>
          rw [hc] at h
          exact absurd h (by simp)
        | some q =>
          obtain ⟨d0, pf0⟩ := q
          rw [hc] at h
          simp only [Option.some.injEq, Prod.mk.injEq] at h
          obtain ⟨hd, hpf⟩ := h
          subst hd
          subst hpf
          have hih := ihl bs d0 pf0 hc
          unfold verify_merkle_proof at hih ⊢
          rw [beq_iff_eq] at hih ⊢
          unfold merkleFold at hih ⊢
          rw [List.foldl_append, hih]
          simp only [List.foldl_cons, List.foldl_nil]
          rfl
      | true =>
        unfold MerkleTree.leafProof at h
        cases hc : MerkleTree.leafProof Hh r bs with
        | none =>
          rw [hc] at h
          exact absurd h (by simp)
        | some q =>
          obtain ⟨d0, pf0⟩ := q
          rw [hc] at h
          simp only [Option.some.injEq, Prod.mk.injEq] at h
          obtain ⟨hd, hpf⟩ := h
          subst hd
          subst hpf
          have hih := ihr bs d0 pf0 hc
          unfold verify_merkle_proof at hih ⊢
          rw [beq_iff_eq] at hih ⊢
          unfold merkleFold at hih ⊢
          rw [List.foldl_append, hih]
          simp only [List.foldl_cons, List.foldl_nil]
          rw [fold_step_comm Hh (MerkleTree.root Hh r) (MerkleTree.root Hh l)]
          rfl

/-- Modelled from the spec: the claim-level instance — a committed
`(recipient, amount)` pair, hashed as `keccak(recipient_bytes ‖
amount_le_bytes)`, verifies with its correctly-ordered proof. -/
lemma merkle_claim_completeness (Hh : Bytes → Bytes) (t : MerkleTree) (path : List Bool)
    (user : Bytes) (amount : Nat) (pf : List Bytes)
    (h : MerkleTree.leafProof Hh t path = some (user ++ u64le amount, pf)) :
    verify_merkle_proof Hh pf (MerkleTree.root Hh t) (Hh (user ++ u64le amount)) = true :=
  merkle_completeness Hh t path (user ++ u64le amount) pf h
